import Mathlib

/-!
Verification of the worktree orchestration engine (worktree-tools-mcp).

This file gives a shallow embedding, in Lean, of the TypeScript sources:
`src/utils/username.ts`, `src/utils/git.ts`, `src/utils/github.ts` and the
tool layers (`create-worktree`, `list-worktrees`, `cleanup-worktree`,
`create-pr`, `worktree-status`), and proves the specified properties about
the embedded definitions.

Modelling conventions:
- Text handed to and returned from external commands is modelled as
  `List Char`, since the engine does character-level processing on it.
- JavaScript string methods (`trim`, `toLowerCase`, `includes`,
  `split`, `parseInt`, regexes actually used) are embedded as executable
  functions over `List Char`, restricted to the ASCII case table
  (the only characters the engine's own alphabets `[a-z0-9-]` retain).
- External collaborators (the git command runner, the GitHub API, the
  filesystem) are modelled as explicit environment records: each field
  holds the observable outcome of one external probe, with `Option`
  encoding "the probe failed / threw".
- Fallible code returns `Except String α`, with the error strings taken
  from the source.
-/

/-- Character set of the JavaScript `\s` class (and of `String.prototype.trim`),
by code point. -/
def jsIsSpace (c : Char) : Bool :=
  [32, 9, 10, 11, 12, 13, 0xa0, 0x1680, 0x2000, 0x2001, 0x2002, 0x2003, 0x2004,
   0x2005, 0x2006, 0x2007, 0x2008, 0x2009, 0x200a, 0x2028, 0x2029, 0x202f,
   0x205f, 0x3000, 0xfeff].contains c.toNat

/-- JavaScript `String.prototype.trim`: strip leading and trailing whitespace. -/
def trimChars (cs : List Char) : List Char :=
  ((cs.dropWhile jsIsSpace).reverse.dropWhile jsIsSpace).reverse

/-- JavaScript `String.prototype.includes(pat)`: `pat` occurs contiguously. -/
def jsIncludes (pat : List Char) : List Char → Bool
  | [] => pat.isEmpty
  | c :: rest => pat.isPrefixOf (c :: rest) || jsIncludes pat rest

/-- JavaScript `String.prototype.split(sep)` for a one-character separator. -/
def splitChar (sep : Char) : List Char → List (List Char)
  | [] => [[]]
  | c :: rest =>
    match splitChar sep rest with
    | [] => if c = sep then [[], []] else [[c]]
    | grp :: rs => if c = sep then [] :: grp :: rs else (c :: grp) :: rs

/-- Decimal digit test, as in the accepting states of JavaScript `parseInt`. -/
def isDigitChar (c : Char) : Bool :=
  48 ≤ c.toNat && c.toNat ≤ 57

/-- The decimal digit character for `d < 10`. -/
def digitChar (d : Nat) : Char := Char.ofNat (48 + d)

/-- Numeric value of a decimal digit character. -/
def digitVal (c : Char) : Nat := c.toNat - 48

/-- Decimal digits of `n`, least significant first. -/
def natCharsLE (n : Nat) : List Char :=
  if _h : n < 10 then [digitChar n]
  else digitChar (n % 10) :: natCharsLE (n / 10)
decreasing_by omega

/-- Decimal rendering of `n`, most significant digit first, as printed by
the external `git rev-list --count` command. -/
def natChars (n : Nat) : List Char := (natCharsLE n).reverse

/-- Value of a big-endian decimal digit string. -/
def parseNatDigits (cs : List Char) : Nat :=
  cs.foldl (fun a c => a * 10 + digitVal c) 0

/-- JavaScript `parseInt(s, 10) || 0`: skip leading whitespace, optional
sign, read leading digits, and collapse the no-digit (`NaN`) case to `0`. -/
def jsParseIntOr0 (cs : List Char) : Int :=
  match cs.dropWhile jsIsSpace with
  | [] => 0
  | c :: rest =>
    if c = '-' then
      let ds := rest.takeWhile isDigitChar
      if ds.isEmpty then 0 else -(parseNatDigits ds : Int)
    else if c = '+' then
      let ds := rest.takeWhile isDigitChar
      if ds.isEmpty then 0 else (parseNatDigits ds : Int)
    else
      let ds := (c :: rest).takeWhile isDigitChar
      if ds.isEmpty then 0 else (parseNatDigits ds : Int)

/-- Characters kept by the engine's sanitising regex `[^a-z0-9-]` (used with
`replace(..., '')`): lowercase ASCII letters, digits, and the hyphen. -/
def isAllowedChar (c : Char) : Bool :=
  (97 ≤ c.toNat && c.toNat ≤ 122) || (48 ≤ c.toNat && c.toNat ≤ 57) || c.toNat == 45

/-- JavaScript `toLowerCase`, restricted to the ASCII case table. -/
def jsToLower (c : Char) : Char :=
  if 65 ≤ c.toNat && c.toNat ≤ 90 then Char.ofNat (c.toNat + 32) else c

/-- JavaScript `replace(/\s+/g, '-')`: each maximal whitespace run becomes a
single hyphen.  The flag records whether we are inside a run. -/
def collapseWsAux : Bool → List Char → List Char
  | _, [] => []
  | inWs, c :: rest =>
    if jsIsSpace c then
      (if inWs then [] else ['-']) ++ collapseWsAux true rest
    else c :: collapseWsAux false rest

/-- `normalizeUsername` from `src/utils/username.ts` (the same three-step
transformation is inlined for the branch description in
`createWorktreeTool`): lowercase, collapse whitespace runs to single
hyphens, strip everything outside `[a-z0-9-]`. -/
def normalizeUsername (s : String) : String :=
  String.mk ((collapseWsAux false (s.toList.map jsToLower)).filter isAllowedChar)

/-! ## `src/utils/username.ts`: identity resolution -/

/-- Provenance tags of `UsernameResult.source` in `src/utils/username.ts`. -/
inductive UsernameSource where
  | manualConfig
  | githubCli
  | gitConfig
  deriving DecidableEq, Repr

/-- `UsernameResult` from `src/utils/username.ts`. -/
structure UsernameResult where
  username : String
  source : UsernameSource
  deriving DecidableEq, Repr

/-- The literal `USERNAME=` key of the override-file regex. -/
def usernameKey : List Char := "USERNAME=".toList

/-- The JavaScript regex match `content.match(/USERNAME=(.+)/)`: scan for the
first position where `USERNAME=` is followed by at least one character other
than a line terminator; the capture runs to the end of that line.  (A
position where `USERNAME=` is followed immediately by a line break does not
match, because `.` does not match line terminators, and the engine keeps
scanning.) -/
def scanUsername : List Char → Option (List Char)
  | [] => none
  | c :: rest =>
    if usernameKey.isPrefixOf (c :: rest) then
      let cap := ((c :: rest).drop 9).takeWhile (fun ch => ch ≠ '\n' && ch ≠ '\r')
      if cap.isEmpty then scanUsername rest else some cap
    else scanUsername rest

/-- Observable outcomes of the three identity probes consulted by
`detectUsername`.  `none` throughout encodes "the probe failed / threw". -/
structure UserEnv where
  /-- Contents of the `.worktree-config` override file; `none` when the file
  is absent or unreadable (or no path was supplied). -/
  configContent : Option String
  /-- stdout of `gh api user --jq .login`; `none` when the CLI is missing,
  unauthenticated, or timed out. -/
  ghStdout : Option String
  /-- `git config user.name`; `none` when unset or git errors. -/
  gitUserName : Option String
  deriving Repr

/-- Error text thrown by `detectUsername` when every fallback fails. -/
def detectUsernameErrorText : String :=
  "Unable to detect username automatically. " ++
  "Please configure git: git config --global user.name \x22Your Name\x22 " ++
  "or install GitHub CLI: brew install gh && gh auth login"

/-- Step 3 of `detectUsername`: the `git config user.name` fallback, which
normalises the display name and requires the result to be non-empty. -/
def gitConfigStep (env : UserEnv) : Except String UsernameResult :=
  match env.gitUserName with
  | some v =>
    let u := normalizeUsername v
    if u = "" then .error detectUsernameErrorText
    else .ok ⟨u, .gitConfig⟩
  | none => .error detectUsernameErrorText

/-- `detectUsername` from `src/utils/username.ts`: manual override file,
then GitHub CLI login, then normalised `git config user.name`; first
success wins, and the final error is raised only when all three fail. -/
def detectUsername (env : UserEnv) : Except String UsernameResult :=
  match env.configContent.bind (fun c => scanUsername c.toList) with
  | some cap => .ok ⟨String.mk (trimChars cap), .manualConfig⟩
  | none =>
    match env.ghStdout with
    | some out =>
      let u := trimChars out.toList
      if u.isEmpty then gitConfigStep env else .ok ⟨String.mk u, .githubCli⟩
    | none => gitConfigStep env

/-! ## `src/utils/git.ts`: repository inspection and worktree primitives -/

/-- `WorktreeInfo` from `src/utils/git.ts`.  `branch` and `head` are optional
because the porcelain parser may push a record before seeing those lines. -/
structure WorktreeInfo where
  path : String
  branch : Option String
  head : Option String
  isMain : Bool
  deriving DecidableEq, Repr

/-- `WorktreeStatus` from `src/utils/git.ts`. -/
structure WorktreeStatus where
  clean : Bool
  ahead : Int
  behind : Int
  uncommitted : Bool
  deriving DecidableEq, Repr

/-- The porcelain keyword line prefix `worktree `. -/
def worktreeKey : List Char := "worktree ".toList

/-- The porcelain keyword line prefix `HEAD `. -/
def headKey : List Char := "HEAD ".toList

/-- The porcelain keyword line prefix `branch `. -/
def branchKey : List Char := "branch ".toList

/-- `getMainRepoRoot` from `src/utils/git.ts`: split the
`git worktree list --porcelain` output into lines and return the payload of
the first `worktree ` line (git lists the main checkout first); fail when no
such line exists. -/
def getMainRepoRoot (raw : List Char) : Except String String :=
  match (splitChar '\n' raw).find? (fun l => worktreeKey.isPrefixOf l) with
  | some l => .ok (String.mk (l.drop 9))
  | none => .error "Not inside a git repository"

/-- The parser state `currentWorktree : Partial<WorktreeInfo>` of
`listWorktrees`. -/
structure PartialWT where
  path : Option (List Char) := none
  head : Option (List Char) := none
  branch : Option (List Char) := none
  isMain : Bool := false
  deriving DecidableEq, Repr

/-- The `currentWorktree as WorktreeInfo` cast performed when the parser
pushes a record. -/
def pushWT (cur : PartialWT) (p : List Char) : WorktreeInfo :=
  { path := String.mk p
    branch := cur.branch.map String.mk
    head := cur.head.map String.mk
    isMain := cur.isMain }

/-- One iteration of the `for (const line of lines)` loop of
`listWorktrees`: `worktree ` lines flush the current record and start a new
one with `isMain := false`; `HEAD ` and `branch ` lines set fields (the
`branch ` payload is taken after dropping the 18 characters of
`branch refs/heads/`); an empty line flushes the current record. -/
def wtStep (st : List WorktreeInfo × PartialWT) (line : List Char) :
    List WorktreeInfo × PartialWT :=
  let acc := st.1
  let cur := st.2
  if worktreeKey.isPrefixOf line then
    let acc := match cur.path with
      | some p => acc ++ [pushWT cur p]
      | none => acc
    (acc, { path := some (line.drop 9), isMain := false })
  else if headKey.isPrefixOf line then
    (acc, { cur with head := some (line.drop 5) })
  else if branchKey.isPrefixOf line then
    (acc, { cur with branch := some (line.drop 18) })
  else if line.isEmpty then
    match cur.path with
    | some p => (acc ++ [pushWT cur p], {})
    | none => (acc, cur)
  else (acc, cur)

/-- `listWorktrees` from `src/utils/git.ts`: parse the porcelain enumeration
into records, then mark the first record (the main checkout) with
`isMain := true`. -/
def listWorktrees (raw : List Char) : List WorktreeInfo :=
  let acc := ((splitChar '\n' raw).foldl wtStep ([], {})).1
  match acc with
  | [] => []
  | w :: rest => { w with isMain := true } :: rest

/-- `getDefaultBranch` from `src/utils/git.ts`: probe `origin/main` then
`origin/master` (the two booleans are the outcomes of the external
`git show-ref --verify` probes); fail when neither remote ref exists. -/
def getDefaultBranch (originMain originMaster : Bool) : Except String String :=
  if originMain then .ok "origin/main"
  else if originMaster then .ok "origin/master"
  else .error "Could not find origin/main or origin/master branch"

/-- `createWorktree` from `src/utils/git.ts`, observed through the base ref
it hands to the external `git worktree add` command: an explicit (truthy,
i.e. non-empty) `baseBranch` is used as-is, otherwise the default branch is
auto-detected.  The `git fetch origin` call and the `git worktree add`
execution itself are external collaborators and are not modelled; the
returned string is the base ref the worktree and branch are created from. -/
def createWorktree (originMain originMaster : Bool) (baseBranch : Option String) :
    Except String String :=
  match baseBranch with
  | some b => if b = "" then getDefaultBranch originMain originMaster else .ok b
  | none => getDefaultBranch originMain originMaster

/-- Observable git-level inputs of `getWorktreeStatus` for one worktree:
the `git status` file list, and the commit sets reachable from the
configured upstream (`none` when no upstream is configured, making the
`revparse --abbrev-ref branch@{upstream}` probe throw) and from `HEAD`.
Commits are identified by naturals. -/
structure GitStatusEnv where
  statusFiles : List String
  upstreamCommits : Option (List Nat)
  headCommits : List Nat
  deriving Repr

/-- Output text of the external
`git rev-list --left-right --count tracking...branch` command:
`<left>TAB<right>NEWLINE`, where the left count is the number of commits
reachable only from the upstream (`tracking`) side and the right count the
number reachable only from `HEAD`. -/
def revListLeftRightCount (upstream head : List Nat) : List Char :=
  natChars ((upstream.filter (fun c => !head.contains c)).length) ++
    '\t' :: natChars ((head.filter (fun c => !upstream.contains c)).length) ++ ['\n']

/-- `getWorktreeStatus` from `src/utils/git.ts`: `clean` is the emptiness of
the `git status` file list; the ahead/behind counts are parsed from the
trimmed, tab-split `rev-list --left-right --count` output (left = behind,
right = ahead), and remain `0` when the upstream probe throws (no tracking
branch configured) or when the split does not yield two fields. -/
def getWorktreeStatus (env : GitStatusEnv) : WorktreeStatus :=
  let clean := env.statusFiles.length == 0
  let counts : Int × Int :=
    match env.upstreamCommits with
    | none => (0, 0)
    | some up =>
      let raw := revListLeftRightCount up env.headCommits
      match splitChar '\t' (trimChars raw) with
      | [l, r] => (jsParseIntOr0 l, jsParseIntOr0 r)
      | _ => (0, 0)
  { clean := clean
    ahead := counts.2
    behind := counts.1
    uncommitted := !clean }

/-! ## Node `path.join` and the create tool (`src/tools/create-worktree.ts`) -/

/-- Node `path.join` for an absolute first argument: concatenate the
arguments, split on `/`, drop empty and `.` segments, resolve `..` against
the accumulated stack (a `..` at the root is dropped), and rejoin with a
leading `/`. -/
def joinAbs (root : String) (parts : List String) : String :=
  let segs := ((root :: parts).flatMap (fun s => splitChar '/' s.toList)).filter
    (fun s => !s.isEmpty && s ≠ ['.'])
  let stack := segs.foldl
    (fun acc s => if s = ['.', '.'] then acc.dropLast else acc ++ [s])
    ([] : List (List Char))
  String.mk ('/' :: List.intercalate ['/'] stack)

/-- Environment of one `createWorktreeTool` invocation: the porcelain
enumeration used by `getMainRepoRoot`, the identity probes, the two trunk
probes, and the repository name.  (`getRepoName` – the `origin` remote URL
munging with directory-basename fallback – never fails and is consumed only
through its result, so the environment carries that result.) -/
structure CreateEnv where
  porcelain : List Char
  userEnv : UserEnv
  originMain : Bool
  originMaster : Bool
  repoName : String
  deriving Repr

/-- `CreateWorktreeResult` from `src/tools/create-worktree.ts`, extended
with `baseUsed`, the base ref handed to `git worktree add` (the observable
of the `createWorktree` call).  The best-effort dependency-install and
env-copy outcomes are external collaborators and are not modelled. -/
structure CreateWorktreeResult where
  worktreePath : String
  branchFullName : String
  username : String
  usernameSource : UsernameSource
  repoName : String
  baseUsed : String
  deriving DecidableEq, Repr

/-- `createWorktreeTool` from `src/tools/create-worktree.ts`: validate the
ticket and description, resolve the main root, the identity and the
repository name, derive the branch name `username/TICKET/normalised` and
the worktree path `join(mainRoot, '..', repoName ++ '-worktrees', username,
TICKET, normalised)`, and create the worktree — passing the hard-coded
explicit base `origin/master` to `createWorktree`. -/
def createWorktreeTool (env : CreateEnv) (ticket branchName : String) :
    Except String CreateWorktreeResult :=
  if (trimChars ticket.toList).isEmpty then .error "Ticket number is required"
  else if (trimChars branchName.toList).isEmpty then .error "Branch name is required"
  else
    match getMainRepoRoot env.porcelain with
    | .error e => .error e
    | .ok mainRepoRoot =>
      match detectUsername env.userEnv with
      | .error e => .error e
      | .ok u =>
        let repoName := env.repoName
        let normalizedBranchName := normalizeUsername branchName
        let fullBranchName := u.username ++ "/" ++ ticket ++ "/" ++ normalizedBranchName
        let worktreesDir := joinAbs mainRepoRoot ["..", repoName ++ "-worktrees"]
        let worktreePath := joinAbs worktreesDir [u.username, ticket, normalizedBranchName]
        match createWorktree env.originMain env.originMaster (some "origin/master") with
        | .error e => .error e
        | .ok baseUsed =>
          .ok { worktreePath := worktreePath
                branchFullName := fullBranchName
                username := u.username
                usernameSource := u.source
                repoName := repoName
                baseUsed := baseUsed }

/-! ## The list tool (`src/tools/list-worktrees.ts`) -/

/-- `WorktreeListItem` from `src/tools/list-worktrees.ts`: a worktree record
optionally extended with its divergence status. -/
structure WorktreeListItem where
  info : WorktreeInfo
  status : Option WorktreeStatus
  deriving DecidableEq, Repr

/-- `ListWorktreesResult` from `src/tools/list-worktrees.ts`. -/
structure ListWorktreesResult where
  worktrees : List WorktreeListItem
  mainRepoPath : String
  deriving DecidableEq, Repr

/-- Environment of one `listWorktreesTool` invocation: the porcelain
enumeration, and the per-path outcome of `getWorktreeStatus` (`none` when
the status query for that worktree throws). -/
structure ListEnv where
  porcelain : List Char
  statusOf : String → Option WorktreeStatus

/-- `listWorktreesTool` from `src/tools/list-worktrees.ts`: resolve the main
root, enumerate the worktrees, attach a status to each non-main record when
the per-worktree status query succeeds (a failure degrades that one record
to "no status" instead of failing the call), and return the list with the
main record filtered out, alongside `mainRepoPath`. -/
def listWorktreesTool (env : ListEnv) : Except String ListWorktreesResult :=
  match getMainRepoRoot env.porcelain with
  | .error e => .error e
  | .ok mainRepoPath =>
    let worktrees := listWorktrees env.porcelain
    let withStatus := worktrees.map (fun w =>
      if w.isMain then ⟨w, none⟩
      else match env.statusOf w.path with
        | some s => (⟨w, some s⟩ : WorktreeListItem)
        | none => ⟨w, none⟩)
    .ok { worktrees := withStatus.filter (fun i => !i.info.isMain)
          mainRepoPath := mainRepoPath }

/-! ## Cleanup directory pruning (`src/tools/cleanup-worktree.ts`)

Directories are modelled as component lists with the innermost component
first (`RPath`); `[]` is the filesystem root `/`, and `path.dirname` is
`List.tail`.  The filesystem is the list of existing entries (directories
and files); `fs.readdir dir` succeeds exactly when `dir` is present, and the
entries of `dir` are the entries whose parent is `dir`. -/

/-- A filesystem path as its components, innermost first; `[]` is `/`. -/
abbrev RPath := List String

/-- Number of directory entries of `d` in the filesystem `fs`. -/
def childCount (fs : List RPath) (d : RPath) : Nat :=
  fs.countP (fun p => !p.isEmpty && p.tail == d)

/-- The `currentDir.includes('-worktrees')` guard of `cleanupWorktreeTool`,
on the joined path: since the pattern contains no `/`, the substring occurs
in the joined absolute path exactly when it occurs inside some component. -/
def pathHasWtContainer (p : RPath) : Bool :=
  p.any (fun comp => jsIncludes "-worktrees".toList comp.toList)

/-- The empty-ancestor pruning loop of `cleanupWorktreeTool`
(`src/tools/cleanup-worktree.ts`): starting from a directory, while the
current directory is not `/`, is not the home directory, and its path
contains `-worktrees`: read it (stop if that fails, i.e. it does not
exist), stop if it is non-empty, otherwise remove it, record it, and move
to its parent.  Returns the updated filesystem and the `directoriesRemoved`
report, in removal order. -/
def pruneUp (home : Option RPath) (fs : List RPath) : RPath → List RPath × List RPath
  | [] => (fs, [])
  | comp :: parent =>
    if some (comp :: parent) = home then (fs, [])
    else if !pathHasWtContainer (comp :: parent) then (fs, [])
    else if (comp :: parent) ∈ fs then
      if childCount fs (comp :: parent) = 0 then
        let r := pruneUp home (fs.erase (comp :: parent)) parent
        (r.1, (comp :: parent) :: r.2)
      else (fs, [])
    else (fs, [])

/-- The ancestor chain of a directory: itself, its parent, …, up to `/`. -/
def ancestorsR : RPath → List RPath
  | [] => [[]]
  | c :: p => (c :: p) :: ancestorsR p

/-! ## `src/utils/github.ts` and the PR tool (`src/tools/create-pr.ts`) -/

/-- `PullRequestResult` from `src/utils/github.ts`. -/
structure PullRequestResult where
  url : String
  number : Nat
  title : String
  deriving DecidableEq, Repr

/-- Environment of one PR pipeline invocation, as observable outcomes of
the external probes consulted by `github.ts`: the current branch name, the
`git log origin/master..HEAD` message list (`none` when the log query
throws), the local branch list, the two credential sources, the parsed
`origin` remote GitHub coordinates (`none` when the remote is missing or
not a GitHub URL), and the GitHub API response used when a request is
actually sent. -/
structure PREnv where
  currentBranch : String
  logFromOriginMaster : Option (List String)
  localBranches : List String
  githubTokenVar : Option String
  ghAuthStdout : Option String
  repoInfo : Option (String × String)
  apiResponse : PullRequestResult

/-- Error text of the trunk-branch refusal in `createPullRequest`. -/
def cannotCreateFromTrunkText : String :=
  "Cannot create PR from master/main branch"

/-- Error text of `generatePRContent` on an empty commit range. -/
def noCommitsText : String := "No commits found for PR"

/-- `getGitHubToken` from `src/utils/github.ts`: the `GITHUB_TOKEN`
environment variable if set (and truthy), else the trimmed `gh auth token`
output if non-empty, else an authentication error. -/
def getGitHubToken (env : PREnv) : Except String String :=
  let tryGh : Except String String :=
    match env.ghAuthStdout with
    | some out =>
      let token := String.mk (trimChars out.toList)
      if token = "" then
        .error ("GitHub authentication required. " ++
          "Either set GITHUB_TOKEN environment variable or run: gh auth login")
      else .ok token
    | none =>
      .error ("GitHub authentication required. " ++
        "Either set GITHUB_TOKEN environment variable or run: gh auth login")
  match env.githubTokenVar with
  | some t => if t = "" then tryGh else .ok t
  | none => tryGh

/-- `createPullRequest` from `src/utils/github.ts`: refuse outright when the
current branch is `master` or `main`; otherwise pick the base branch,
resolve credentials and repository coordinates, and send the API request.
The second component records whether the network request was actually
attempted.  On success the API response is returned as in the source
(`html_url`, `number`, `title` of the response). -/
def createPullRequest (env : PREnv) (_title : String) (_body : Option String)
    (_draft : Bool) : Except String PullRequestResult × Bool :=
  if env.currentBranch = "master" ∨ env.currentBranch = "main" then
    (.error cannotCreateFromTrunkText, false)
  else
    let _baseBranch := if env.localBranches.contains "master" then "master" else "main"
    match getGitHubToken env with
    | .error e => (.error e, false)
    | .ok _ =>
      match env.repoInfo with
      | none => (.error "Origin remote is not a GitHub repository", false)
      | some _ => (.ok env.apiResponse, true)

/-- `getCommitsSinceBase` from `src/utils/github.ts` (with its default base
`master`): the commit messages of `git log origin/master..HEAD`. -/
def getCommitsSinceBase (env : PREnv) : Except String (List String) :=
  match env.logFromOriginMaster with
  | some l => .ok l
  | none => .error "git log failed"

/-- First line of a commit message (`msg.split('\n')[0]`). -/
def firstLine (s : String) : String :=
  String.mk (s.toList.takeWhile (fun c => c ≠ '\n'))

/-- `generatePRContent` from `src/utils/github.ts`: title is the first line
of the first commit in the range; the body lists each commit's first line
under a `## Commits` heading when there is more than one commit, and is
empty otherwise; an empty range is an error. -/
def generatePRContent (env : PREnv) : Except String (String × String) :=
  match getCommitsSinceBase env with
  | .error e => .error e
  | .ok commits =>
    match commits with
    | [] => .error noCommitsText
    | c :: rest =>
      let title := firstLine c
      let body :=
        if rest.length + 1 > 1 then
          "## Commits\n\n" ++
            String.intercalate "\n" ((c :: rest).map (fun m => "- " ++ firstLine m))
        else ""
      .ok (title, body)

/-- JavaScript falsiness of an optional string argument (`undefined` or
the empty string). -/
def isFalsyStr (o : Option String) : Bool :=
  match o with
  | none => true
  | some s => s.isEmpty

/-- `createPRTool` from `src/tools/create-pr.ts`: when the caller omits the
title or the body (or passes an empty one), derive both from the commit
range first; then delegate to `createPullRequest`.  The second component
records whether a network request was attempted. -/
def createPRTool (env : PREnv) (title body : Option String) (draft : Bool) :
    Except String PullRequestResult × Bool :=
  if isFalsyStr title || isFalsyStr body then
    match generatePRContent env with
    | .error e => (.error e, false)
    | .ok g =>
      let prTitle := match title with
        | some t => if t.isEmpty then g.1 else t
        | none => g.1
      let prBody := match body with
        | some b => if b.isEmpty then g.2 else b
        | none => g.2
      createPullRequest env prTitle (some prBody) draft
  else
    let prTitle := match title with | some t => t | none => ""
    let prBody := match body with | some b => b | none => ""
    createPullRequest env prTitle (some prBody) draft

/-! ## Concrete fixtures used by the claim theorems and witnesses -/

/-- A user environment whose override file names `alice`. -/
def fixtureUserAlice : UserEnv :=
  { configContent := some "USERNAME=alice\n", ghStdout := none, gitUserName := none }

/-- A creation environment for repository `acme` at `/home/alice/acme`
whose remote has `origin/master` but no `origin/main`. -/
def fixtureCreateEnvA : CreateEnv :=
  { porcelain := "worktree /home/alice/acme\nHEAD abc\nbranch refs/heads/main\n\n".toList,
    userEnv := fixtureUserAlice, originMain := false, originMaster := true,
    repoName := "acme" }

/-- The same creation environment, but the remote has `origin/main` and no
`origin/master`. -/
def fixtureCreateEnvMainOnly : CreateEnv :=
  { porcelain := "worktree /home/alice/acme\nHEAD abc\nbranch refs/heads/main\n\n".toList,
    userEnv := fixtureUserAlice, originMain := true, originMaster := false,
    repoName := "acme" }

/-- The creation result for ticket `CO-100`, description `billing feature`
under `fixtureCreateEnvA`. -/
def fixtureResultA : CreateWorktreeResult :=
  { worktreePath := "/home/alice/acme-worktrees/alice/CO-100/billing-feature",
    branchFullName := "alice/CO-100/billing-feature",
    username := "alice", usernameSource := .manualConfig,
    repoName := "acme", baseUsed := "origin/master" }

/-- The creation result for ticket `T-1`, description `x` under
`fixtureCreateEnvMainOnly`. -/
def fixtureResultB : CreateWorktreeResult :=
  { worktreePath := "/home/alice/acme-worktrees/alice/T-1/x",
    branchFullName := "alice/T-1/x",
    username := "alice", usernameSource := .manualConfig,
    repoName := "acme", baseUsed := "origin/master" }

/-- A concrete home directory `/home/u` (components innermost-first). -/
def fixtureHome : RPath := ["u", "home"]

/-- A concrete filesystem around `/home/u/acme-worktrees/alice/CO-1`, after
the worktree directory itself has been removed. -/
def fixtureFs : List RPath :=
  [["home"], ["u", "home"], ["acme", "u", "home"],
   ["acme-worktrees", "u", "home"],
   ["alice", "acme-worktrees", "u", "home"],
   ["CO-1", "alice", "acme-worktrees", "u", "home"]]

/-- The parent directory of the removed worktree
`/home/u/acme-worktrees/alice/CO-1/feat`, where the pruning walk starts. -/
def fixtureStart : RPath := ["CO-1", "alice", "acme-worktrees", "u", "home"]

/-! ## Lemmas about the character-level primitives -/

theorem allowed_not_space {c : Char} (h : isAllowedChar c = true) : jsIsSpace c = false := by
  simp [isAllowedChar] at h
  simp [jsIsSpace]
  omega

theorem allowed_toLower_fix {c : Char} (h : isAllowedChar c = true) : jsToLower c = c := by
  simp [isAllowedChar] at h
  simp only [jsToLower]
  split
  · next hc => simp at hc; omega
  · rfl

theorem collapseWsAux_of_no_space (l : List Char) (h : ∀ c ∈ l, jsIsSpace c = false) :
    ∀ b, collapseWsAux b l = l := by
  induction l with
  | nil => intro b; rfl
  | cons c rest ih =>
    intro b
    have hc := h c (by simp)
    simp only [collapseWsAux, hc, Bool.false_eq_true, if_false]
    rw [ih (fun x hx => h x (by simp [hx])) false]

theorem map_fix_of_mem (l : List Char) (f : Char → Char) (h : ∀ c ∈ l, f c = c) :
    l.map f = l := by
  induction l with
  | nil => rfl
  | cons c rest ih =>
    simp only [List.map_cons, h c (by simp), ih (fun x hx => h x (by simp [hx]))]

/-- Claim C8: the description-normalisation function (lowercase, whitespace
runs collapsed to single hyphens, characters outside `[a-z0-9-]` stripped)
is idempotent, and `"Billing Feature!"` normalises to `"billing-feature"`. -/
theorem c8_normalize_idempotent :
    (∀ s : String, normalizeUsername (normalizeUsername s) = normalizeUsername s) ∧
    normalizeUsername "Billing Feature!" = "billing-feature" := by
  constructor
  · intro s
    show normalizeUsername
      (String.mk ((collapseWsAux false (s.toList.map jsToLower)).filter isAllowedChar)) = _
    set l := (collapseWsAux false (s.toList.map jsToLower)).filter isAllowedChar with hl
    have hall : ∀ c ∈ l, isAllowedChar c = true := fun c hc => (List.mem_filter.mp hc).2
    show String.mk ((collapseWsAux false (l.map jsToLower)).filter isAllowedChar) = String.mk l
    rw [map_fix_of_mem l jsToLower (fun c hc => allowed_toLower_fix (hall c hc))]
    rw [collapseWsAux_of_no_space l (fun c hc => allowed_not_space (hall c hc)) false]
    rw [List.filter_eq_self.mpr hall]
  · decide

/-! ## Identity resolution: claims C7 and C10 -/

/-- Claim C10: an override file whose `USERNAME=` value is whitespace-only
makes `detectUsername` return the empty string tagged `manual_config` —
the override path does not re-check the trimmed value for non-emptiness —
while the git-config fallback does reject an empty normalised name and
fails instead. -/
theorem c10_override_empty_value :
    detectUsername { configContent := some "USERNAME=   \n", ghStdout := some "realuser",
                     gitUserName := some "Real User" } =
      .ok ⟨"", .manualConfig⟩ ∧
    detectUsername { configContent := none, ghStdout := none,
                     gitUserName := some "!!!" } =
      .error detectUsernameErrorText := by
  constructor
  · rfl
  · rfl

theorem detectUsername_manual (env : UserEnv) (c : String) (cap : List Char)
    (h1 : env.configContent = some c) (h2 : scanUsername c.toList = some cap) :
    detectUsername env = .ok ⟨String.mk (trimChars cap), .manualConfig⟩ := by
  have h2a : scanUsername c.data = some cap := h2
  simp [detectUsername, h1, h2a]

theorem detectUsername_gh (env : UserEnv) (out : String)
    (h1 : env.configContent.bind (fun c => scanUsername c.toList) = none)
    (h2 : env.ghStdout = some out) (h3 : trimChars out.toList ≠ []) :
    detectUsername env = .ok ⟨String.mk (trimChars out.toList), .githubCli⟩ := by
  have h1a : (env.configContent.bind fun a => scanUsername a.data) = none := h1
  have h3a : trimChars out.data ≠ [] := h3
  simp [detectUsername, h1a, h2, h3a, List.isEmpty_iff]

theorem detectUsername_git (env : UserEnv) (v : String)
    (h1 : env.configContent.bind (fun c => scanUsername c.toList) = none)
    (h2 : ∀ out, env.ghStdout = some out → trimChars out.toList = [])
    (h3 : env.gitUserName = some v) (h4 : normalizeUsername v ≠ "") :
    detectUsername env = .ok ⟨normalizeUsername v, .gitConfig⟩ := by
  have h1a : (env.configContent.bind fun a => scanUsername a.data) = none := h1
  rcases hgh : env.ghStdout with _ | out
  · simp [detectUsername, h1a, hgh, gitConfigStep, h3, h4]
  · have hout : trimChars out.data = [] := h2 out hgh
    simp [detectUsername, h1a, hgh, hout, gitConfigStep, h3, h4]

theorem detectUsername_error_iff (env : UserEnv) :
    detectUsername env = .error detectUsernameErrorText ↔
      (env.configContent.bind (fun c => scanUsername c.toList) = none ∧
       (∀ out, env.ghStdout = some out → trimChars out.toList = []) ∧
       (∀ v, env.gitUserName = some v → normalizeUsername v = "")) := by
  constructor
  · intro herr
    rcases hb : env.configContent.bind (fun c => scanUsername c.toList) with _ | cap
    · have hgh2 : ∀ out, env.ghStdout = some out → trimChars out.toList = [] := by
        intro out hgh
        by_contra hne
        rw [detectUsername_gh env out hb hgh hne] at herr
        exact Except.noConfusion herr
      refine ⟨rfl, hgh2, ?_⟩
      intro v hv
      by_contra hne
      rw [detectUsername_git env v hb hgh2 hv hne] at herr
      exact Except.noConfusion herr
    · obtain ⟨c, hc, hscan⟩ := Option.bind_eq_some.mp hb
      rw [detectUsername_manual env c cap hc hscan] at herr
      exact Except.noConfusion herr
  · rintro ⟨h1, h2, h3⟩
    have h1a : (env.configContent.bind fun a => scanUsername a.data) = none := h1
    rcases hgh : env.ghStdout with _ | out
    · rcases hgn : env.gitUserName with _ | v
      · simp [detectUsername, h1a, hgh, gitConfigStep, hgn]
      · simp [detectUsername, h1a, hgh, gitConfigStep, hgn, h3 v hgn]
    · have hout : trimChars out.data = [] := h2 out hgh
      rcases hgn : env.gitUserName with _ | v
      · simp [detectUsername, h1a, hgh, hout, gitConfigStep, hgn]
      · simp [detectUsername, h1a, hgh, hout, gitConfigStep, hgn, h3 v hgn]

/-- Claim C7: `detectUsername` consults its three sources in strict order
with first success winning — a matching override file wins over everything
and its value is returned trimmed but otherwise untransformed, tagged
`manual_config`; a non-empty trimmed GitHub CLI login wins over the git
config; a non-empty normalised git-config name is used last — and the
detection error is raised exactly when all three sources produce nothing. -/
theorem c7_identity_precedence :
    (∀ (env : UserEnv) (c : String) (cap : List Char), env.configContent = some c →
        scanUsername c.toList = some cap →
        detectUsername env = .ok ⟨String.mk (trimChars cap), .manualConfig⟩) ∧
    (∀ (env : UserEnv) (out : String),
        env.configContent.bind (fun c => scanUsername c.toList) = none →
        env.ghStdout = some out → trimChars out.toList ≠ [] →
        detectUsername env = .ok ⟨String.mk (trimChars out.toList), .githubCli⟩) ∧
    (∀ (env : UserEnv) (v : String),
        env.configContent.bind (fun c => scanUsername c.toList) = none →
        (∀ out, env.ghStdout = some out → trimChars out.toList = []) →
        env.gitUserName = some v → normalizeUsername v ≠ "" →
        detectUsername env = .ok ⟨normalizeUsername v, .gitConfig⟩) ∧
    (∀ env : UserEnv,
        detectUsername env = .error detectUsernameErrorText ↔
          (env.configContent.bind (fun c => scanUsername c.toList) = none ∧
           (∀ out, env.ghStdout = some out → trimChars out.toList = []) ∧
           (∀ v, env.gitUserName = some v → normalizeUsername v = ""))) :=
  ⟨detectUsername_manual, detectUsername_gh, detectUsername_git, detectUsername_error_iff⟩

/-- Witness for claim C7 at a concrete environment: the override file wins
even though the GitHub CLI probe and the git config are both live. -/
theorem c7_identity_precedence_witness :
    detectUsername { configContent := some "USERNAME=alice\n", ghStdout := some "bob",
                     gitUserName := some "Carol X" } =
      .ok ⟨String.mk (trimChars "alice".toList), .manualConfig⟩ :=
  c7_identity_precedence.1
    { configContent := some "USERNAME=alice\n", ghStdout := some "bob",
      gitUserName := some "Carol X" }
    "USERNAME=alice\n" "alice".toList rfl rfl

/-! ## Worktree enumeration: claims C5 and C9 -/

theorem wtStep_isMain (st : List WorktreeInfo × PartialWT) (line : List Char)
    (h1 : ∀ w ∈ st.1, w.isMain = false) (h2 : st.2.isMain = false) :
    (∀ w ∈ (wtStep st line).1, w.isMain = false) ∧ (wtStep st line).2.isMain = false := by
  have hpush : ∀ p, ∀ w ∈ st.1 ++ [pushWT st.2 p], w.isMain = false := by
    intro p w hw
    rcases List.mem_append.mp hw with hw | hw
    · exact h1 w hw
    · rcases List.mem_singleton.mp hw with rfl
      exact h2
  unfold wtStep
  split
  · rcases hp : st.2.path with _ | p <;> simp only [hp]
    · exact ⟨h1, trivial⟩
    · exact ⟨hpush p, trivial⟩
  · split
    · exact ⟨h1, h2⟩
    · split
      · exact ⟨h1, h2⟩
      · split
        · rcases hp : st.2.path with _ | p <;> simp only [hp]
          · exact ⟨h1, h2⟩
          · exact ⟨hpush p, trivial⟩
        · exact ⟨h1, h2⟩

theorem foldl_wtStep_isMain (lines : List (List Char)) :
    ∀ st : List WorktreeInfo × PartialWT, (∀ w ∈ st.1, w.isMain = false) →
      st.2.isMain = false →
      (∀ w ∈ (lines.foldl wtStep st).1, w.isMain = false) ∧
        (lines.foldl wtStep st).2.isMain = false := by
  induction lines with
  | nil => intro st h1 h2; exact ⟨h1, h2⟩
  | cons line rest ih =>
    intro st h1 h2
    have hstep := wtStep_isMain st line h1 h2
    exact ih (wtStep st line) hstep.1 hstep.2

/-- Claim C5: on every non-empty enumeration, `listWorktrees` returns the
main record first with `isMain = true`, every other record has
`isMain = false`, and exactly one returned record has `isMain = true`. -/
theorem c5_exactly_one_main (raw : List Char) (h : listWorktrees raw ≠ []) :
    ∃ m rest, listWorktrees raw = m :: rest ∧ m.isMain = true ∧
      (∀ w ∈ rest, w.isMain = false) ∧
      (listWorktrees raw).countP (fun w => w.isMain) = 1 := by
  have hinv := foldl_wtStep_isMain (splitChar '\n' raw) ([], {}) (by simp) rfl
  rcases hacc : ((splitChar '\n' raw).foldl wtStep ([], {})).1 with _ | ⟨w, rest⟩
  · exfalso
    apply h
    simp [listWorktrees, hacc]
  · have hres : listWorktrees raw = { w with isMain := true } :: rest := by
      simp [listWorktrees, hacc]
    have hrest : ∀ x ∈ rest, x.isMain = false := by
      intro x hx
      exact hinv.1 x (by rw [hacc]; exact List.mem_cons_of_mem _ hx)
    refine ⟨{ w with isMain := true }, rest, hres, rfl, hrest, ?_⟩
    rw [hres]
    have h0 : rest.countP (fun w => w.isMain) = 0 :=
      List.countP_eq_zero.mpr (fun a ha => by simp [hrest a ha])
    simp [List.countP_cons, h0]

/-- Witness for claim C5 on a two-entry porcelain enumeration. -/
theorem c5_exactly_one_main_witness :
    listWorktrees ("worktree /repo\nHEAD abc\nbranch refs/heads/main\n\nworktree /wt\nHEAD def\nbranch refs/heads/feat\n\n".toList) ≠ [] ∧
    (∃ m rest, listWorktrees ("worktree /repo\nHEAD abc\nbranch refs/heads/main\n\nworktree /wt\nHEAD def\nbranch refs/heads/feat\n\n".toList) = m :: rest ∧
      m.isMain = true ∧ (∀ w ∈ rest, w.isMain = false) ∧
      (listWorktrees ("worktree /repo\nHEAD abc\nbranch refs/heads/main\n\nworktree /wt\nHEAD def\nbranch refs/heads/feat\n\n".toList)).countP (fun w => w.isMain) = 1) :=
  ⟨by decide, c5_exactly_one_main _ (by decide)⟩

theorem c9_map_filter (ws : List WorktreeInfo) (statusOf : String → Option WorktreeStatus) :
    ((ws.map (fun w =>
        if w.isMain then (⟨w, none⟩ : WorktreeListItem)
        else match statusOf w.path with
          | some s => (⟨w, some s⟩ : WorktreeListItem)
          | none => ⟨w, none⟩)).filter (fun i => !i.info.isMain)).map (fun i => i.info) =
      ws.filter (fun w => !w.isMain) := by
  induction ws with
  | nil => rfl
  | cons w rest ih =>
    by_cases hm : w.isMain
    · simp only [List.map_cons, hm, if_true, List.filter_cons]
      simpa [hm] using ih
    · rcases hs : statusOf w.path with _ | s <;>
        simp only [List.map_cons, hm, if_false, hs, List.filter_cons] <;>
        simp only [Bool.not_eq_true] at hm <;>
        simp [hm, ih]

/-- Claim C9: a successful `listWorktreesTool` call returns only non-main
records (the main checkout is surfaced solely through `mainRepoPath`, the
first enumerated path); a record whose divergence query failed is returned
without a status; and the returned record list is the full non-main
enumeration, independent of any status failures. -/
theorem c9_list_tool_no_main (env : ListEnv) (r : ListWorktreesResult)
    (h : listWorktreesTool env = .ok r) :
    (∀ i ∈ r.worktrees, i.info.isMain = false) ∧
    (∀ i ∈ r.worktrees, env.statusOf i.info.path = none → i.status = none) ∧
    r.worktrees.map (fun i => i.info) = (listWorktrees env.porcelain).filter (fun w => !w.isMain) ∧
    getMainRepoRoot env.porcelain = .ok r.mainRepoPath := by
  rcases hroot : getMainRepoRoot env.porcelain with e | root
  · simp only [listWorktreesTool, hroot] at h
    exact Except.noConfusion h
  simp only [listWorktreesTool, hroot] at h
  obtain rfl := (Except.ok.injEq _ _).mp h
  refine ⟨?_, ?_, ?_, rfl⟩
  · intro i hi
    have := List.of_mem_filter hi
    simpa using this
  · intro i hi hnone
    have hi2 := List.mem_of_mem_filter hi
    obtain ⟨w, _hw, rfl⟩ := List.mem_map.mp hi2
    by_cases hm : w.isMain
    · simp [hm]
    · rcases hs : env.statusOf w.path with _ | s
      · simp [hm, hs]
      · exfalso
        rw [show (if w.isMain then (⟨w, none⟩ : WorktreeListItem)
            else match env.statusOf w.path with
              | some s => (⟨w, some s⟩ : WorktreeListItem)
              | none => ⟨w, none⟩).info = w by
          rcases hs2 : env.statusOf w.path <;> simp [hm, hs2]] at hnone
        rw [hnone] at hs
        exact Option.noConfusion hs
  · exact c9_map_filter (listWorktrees env.porcelain) env.statusOf

/-- Witness for claim C9: a concrete two-entry enumeration whose single
auxiliary worktree has a failing status query. -/
theorem c9_list_tool_no_main_witness :
    listWorktreesTool
        { porcelain := "worktree /repo\nHEAD abc\nbranch refs/heads/main\n\nworktree /wt\nHEAD def\nbranch refs/heads/feat\n\n".toList,
          statusOf := fun _ => none } =
      .ok { worktrees := [⟨⟨"/wt", some "feat", some "def", false⟩, none⟩],
            mainRepoPath := "/repo" } ∧
    (∀ i ∈ ([⟨⟨"/wt", some "feat", some "def", false⟩, none⟩] : List WorktreeListItem),
      i.info.isMain = false) :=
  ⟨by rfl,
   (c9_list_tool_no_main
      { porcelain := "worktree /repo\nHEAD abc\nbranch refs/heads/main\n\nworktree /wt\nHEAD def\nbranch refs/heads/feat\n\n".toList,
        statusOf := fun _ => none }
      { worktrees := [⟨⟨"/wt", some "feat", some "def", false⟩, none⟩],
        mainRepoPath := "/repo" }
      (by rfl)).1⟩

/-! ## Worktree creation: claims C3 and C1 -/

theorem createWorktreeTool_ok (env : CreateEnv) (t bn : String) (r : CreateWorktreeResult)
    (h : createWorktreeTool env t bn = .ok r) :
    ∃ root u, getMainRepoRoot env.porcelain = .ok root ∧
      detectUsername env.userEnv = .ok u ∧
      r.username = u.username ∧
      r.branchFullName = u.username ++ "/" ++ t ++ "/" ++ normalizeUsername bn ∧
      r.worktreePath =
        joinAbs (joinAbs root ["..", env.repoName ++ "-worktrees"])
          [u.username, t, normalizeUsername bn] ∧
      r.baseUsed = "origin/master" ∧
      r.repoName = env.repoName := by
  unfold createWorktreeTool at h
  split at h
  · exact Except.noConfusion h
  split at h
  · exact Except.noConfusion h
  rcases hroot : getMainRepoRoot env.porcelain with e | root <;>
    rw [hroot] at h
  · exact Except.noConfusion h
  rcases hu : detectUsername env.userEnv with e | u <;> rw [hu] at h
  · exact Except.noConfusion h
  have hcw : createWorktree env.originMain env.originMaster (some "origin/master") =
      .ok "origin/master" := rfl
  rw [hcw] at h
  obtain rfl := ((Except.ok.injEq _ _).mp h).symm
  exact ⟨root, u, rfl, rfl, rfl, rfl, rfl, rfl, rfl⟩

/-- Claim C3: the computed branch name and worktree path are deterministic
functions of the identity, the repository name, the resolved main root, the
verbatim ticket and the normalised description; and on the concrete
scenario (identity `alice`, repository `acme`, main root
`/home/alice/acme`, ticket `CO-100`, description `billing feature`) the
branch is `alice/CO-100/billing-feature` and the path is
`/home/alice/acme-worktrees/alice/CO-100/billing-feature` (the claim's
`<root>/../acme-worktrees/...`, after `path.join` resolves `..`). -/
theorem c3_deterministic_naming :
    (∀ (env env2 : CreateEnv) (t bn bn2 : String) (r r2 : CreateWorktreeResult),
        createWorktreeTool env t bn = .ok r →
        createWorktreeTool env2 t bn2 = .ok r2 →
        r.username = r2.username →
        env.repoName = env2.repoName →
        getMainRepoRoot env.porcelain = getMainRepoRoot env2.porcelain →
        normalizeUsername bn = normalizeUsername bn2 →
        r.branchFullName = r2.branchFullName ∧ r.worktreePath = r2.worktreePath) ∧
    (∃ r, createWorktreeTool fixtureCreateEnvA "CO-100" "billing feature" = .ok r ∧
      r.branchFullName = "alice/CO-100/billing-feature" ∧
      r.worktreePath = "/home/alice/acme-worktrees/alice/CO-100/billing-feature") := by
  constructor
  · intro env env2 t bn bn2 r r2 h h2 hu hrepo hroot hnorm
    obtain ⟨root, u, hr1, hu1, hru1, hb1, hp1, _, _⟩ := createWorktreeTool_ok env t bn r h
    obtain ⟨root2, u2, hr2, hu2, hru2, hb2, hp2, _, _⟩ := createWorktreeTool_ok env2 t bn2 r2 h2
    have hroots : root = root2 := by
      rw [hr1, hr2] at hroot
      exact (Except.ok.injEq _ _).mp hroot
    have husers : u.username = u2.username := by
      rw [hru1, hru2] at hu
      exact hu
    constructor
    · rw [hb1, hb2, husers, hnorm]
    · rw [hp1, hp2, husers, hnorm, hroots, hrepo]
  · exact ⟨fixtureResultA, rfl, rfl, rfl⟩

set_option maxHeartbeats 2000000 in
/-- Witness for claim C3: two invocations differing only in the (equally
normalising) description text produce the same branch name and path. -/
theorem c3_deterministic_naming_witness :
    createWorktreeTool fixtureCreateEnvA "CO-100" "billing feature" = .ok fixtureResultA ∧
    createWorktreeTool fixtureCreateEnvA "CO-100" "Billing FEATURE!" = .ok fixtureResultA ∧
    fixtureResultA.branchFullName = fixtureResultA.branchFullName ∧
    fixtureResultA.worktreePath = fixtureResultA.worktreePath := by
  have h1 : createWorktreeTool fixtureCreateEnvA "CO-100" "billing feature" =
      .ok fixtureResultA := by rfl
  have h2 : createWorktreeTool fixtureCreateEnvA "CO-100" "Billing FEATURE!" =
      .ok fixtureResultA := by rfl
  have hdet := c3_deterministic_naming.1 fixtureCreateEnvA fixtureCreateEnvA "CO-100"
    "billing feature" "Billing FEATURE!" fixtureResultA fixtureResultA h1 h2 rfl rfl rfl (by rfl)
  exact ⟨h1, h2, hdet.1, hdet.2⟩

set_option maxHeartbeats 1000000 in
/-- Counterexample for claim C1: in an environment where the remote ref
`origin/main` exists (and `origin/master` does not even exist), a create
invocation with no caller-supplied base still hands `origin/master` — not
the claim's resolved trunk `origin/main` — to `git worktree add`, because
`createWorktreeTool` passes the hard-coded explicit base `origin/master`. -/
theorem c1_counterexample :
    fixtureCreateEnvMainOnly.originMain = true ∧
    createWorktreeTool fixtureCreateEnvMainOnly "T-1" "x" = .ok fixtureResultB ∧
    fixtureResultB.baseUsed = "origin/master" ∧
    fixtureResultB.baseUsed ≠ "origin/main" := by
  refine ⟨rfl, by rfl, rfl, ?_⟩
  decide

/-- Claim C1 as amended: the create tool always passes the explicit base
`origin/master` (so every successful create invocation branches from
`origin/master`, regardless of the trunk probes); the resolved-trunk
priority (`origin/main`, then `origin/master`, else the no-trunk error)
governs `createWorktree` only when it is called without an explicit
(non-empty) base branch — which the create tool never does. -/
theorem c1_amended_trunk_base :
    (∀ (env : CreateEnv) (t bn : String) (r : CreateWorktreeResult),
        createWorktreeTool env t bn = .ok r → r.baseUsed = "origin/master") ∧
    (∀ (om oma : Bool) (b : String), b ≠ "" → createWorktree om oma (some b) = .ok b) ∧
    (∀ oma : Bool, createWorktree true oma none = .ok "origin/main") ∧
    createWorktree false true none = .ok "origin/master" ∧
    createWorktree false false none =
      .error "Could not find origin/main or origin/master branch" := by
  refine ⟨?_, ?_, ?_, rfl, rfl⟩
  · intro env t bn r h
    obtain ⟨_, _, _, _, _, _, _, hbase, _⟩ := createWorktreeTool_ok env t bn r h
    exact hbase
  · intro om oma b hb
    simp [createWorktree, hb]
  · intro oma
    rfl

set_option maxHeartbeats 1000000 in
/-- Witness for the amended claim C1 at the concrete environment of the
counterexample, plus a concrete explicit-base call. -/
theorem c1_amended_trunk_base_witness :
    createWorktreeTool fixtureCreateEnvMainOnly "T-1" "x" = .ok fixtureResultB ∧
    fixtureResultB.baseUsed = "origin/master" ∧
    ("origin/main" : String) ≠ "" ∧
    createWorktree true true (some "origin/main") = .ok "origin/main" := by
  have h1 : createWorktreeTool fixtureCreateEnvMainOnly "T-1" "x" = .ok fixtureResultB := by rfl
  exact ⟨h1, c1_amended_trunk_base.1 fixtureCreateEnvMainOnly "T-1" "x" fixtureResultB h1,
    by decide, c1_amended_trunk_base.2.1 true true "origin/main" (by decide)⟩

/-! ## PR creation from trunk: claim C4 -/

theorem createPullRequest_trunk (env : PREnv) (title : String) (body : Option String)
    (draft : Bool) (h : env.currentBranch = "master" ∨ env.currentBranch = "main") :
    createPullRequest env title body draft = (.error cannotCreateFromTrunkText, false) := by
  simp [createPullRequest, h]

/-- Counterexample for claim C4: with HEAD on `main` and an empty
`origin/master..HEAD` commit range, a `createPR` invocation that supplies
neither title nor body fails with the `NoCommits` error — commit-based
content generation runs first and throws before the trunk check — not with
`CannotCreateFromTrunk`; no network call is attempted either way. -/
theorem c4_counterexample :
    createPRTool
        { currentBranch := "main", logFromOriginMaster := some [],
          localBranches := ["main"], githubTokenVar := none, ghAuthStdout := none,
          repoInfo := none, apiResponse := ⟨"", 0, ""⟩ }
        none none false =
      (.error noCommitsText, false) ∧
    noCommitsText ≠ cannotCreateFromTrunkText := by
  exact ⟨rfl, by decide⟩

/-- Claim C4 as amended: whenever `createPR` is invoked while HEAD is the
trunk branch (`master` or `main`), no network call is attempted and the
operation fails; the error is `CannotCreateFromTrunk` whenever the caller
supplied both a (non-empty) title and body, and also whenever commit-based
content generation succeeds (a non-empty commit range); but when title or
body is missing and the `origin/master..HEAD` range is empty, the earlier
`NoCommits` error is reported instead. -/
theorem c4_amended_trunk_refusal (env : PREnv) (title body : Option String) (draft : Bool)
    (h : env.currentBranch = "master" ∨ env.currentBranch = "main") :
    (createPRTool env title body draft).2 = false ∧
    (∃ e, (createPRTool env title body draft).1 = .error e) ∧
    (isFalsyStr title = false → isFalsyStr body = false →
      (createPRTool env title body draft).1 = .error cannotCreateFromTrunkText) ∧
    (∀ l, env.logFromOriginMaster = some l → l ≠ [] →
      (createPRTool env title body draft).1 = .error cannotCreateFromTrunkText) := by
  have htrunk := createPullRequest_trunk env
  unfold createPRTool
  split
  · rcases hgen : generatePRContent env with e | g
    · refine ⟨rfl, ⟨e, rfl⟩, ?_, ?_⟩
      · intro ht hb
        rename_i hfal
        rw [ht, hb] at hfal
        simp at hfal
      · intro l hl hlne
        exfalso
        rcases l with _ | ⟨c, rest⟩
        · exact hlne rfl
        · rw [generatePRContent, getCommitsSinceBase, hl] at hgen
          simp at hgen
    · dsimp only
      rw [htrunk _ _ _ h]
      exact ⟨rfl, ⟨cannotCreateFromTrunkText, rfl⟩, fun _ _ => rfl, fun _ _ _ => rfl⟩
  · dsimp only
    rw [htrunk _ _ _ h]
    exact ⟨rfl, ⟨cannotCreateFromTrunkText, rfl⟩, fun _ _ => rfl, fun _ _ _ => rfl⟩

/-- Witness for the amended claim C4: HEAD on `main`, title and body both
supplied, a live commit range — the call fails with the trunk refusal and
no network request. -/
theorem c4_amended_trunk_refusal_witness :
    (createPRTool
        { currentBranch := "main", logFromOriginMaster := some ["feat: x"],
          localBranches := ["main"], githubTokenVar := some "tok", ghAuthStdout := none,
          repoInfo := some ("o", "r"), apiResponse := ⟨"u", 1, "t"⟩ }
        (some "My PR") (some "Body") false).2 = false ∧
    (createPRTool
        { currentBranch := "main", logFromOriginMaster := some ["feat: x"],
          localBranches := ["main"], githubTokenVar := some "tok", ghAuthStdout := none,
          repoInfo := some ("o", "r"), apiResponse := ⟨"u", 1, "t"⟩ }
        (some "My PR") (some "Body") false).1 = .error cannotCreateFromTrunkText := by
  have h := c4_amended_trunk_refusal
    { currentBranch := "main", logFromOriginMaster := some ["feat: x"],
      localBranches := ["main"], githubTokenVar := some "tok", ghAuthStdout := none,
      repoInfo := some ("o", "r"), apiResponse := ⟨"u", 1, "t"⟩ }
    (some "My PR") (some "Body") false (Or.inr rfl)
  exact ⟨h.1, h.2.2.1 rfl rfl⟩

/-! ## Cleanup pruning safety: claim C2

The cleanup tool starts the walk at `path.dirname(worktreePath)`, i.e. at
`worktreePath.tail` in the innermost-first representation; the theorem is
stated for an arbitrary start directory. -/

/-- Claim C2: every directory the pruning walk removes is distinct from the
filesystem root and from the home directory and its path contains the
`-worktrees` container name; the surviving filesystem is exactly the
original minus the reported `directoriesRemoved` (so every removal is
reported); no removed directory has any surviving entry under it (only
completely empty directories are removed); and the removals form a
contiguous upward chain from the start directory (the walk stops at the
first directory it cannot remove). -/
theorem c2_prune_safety (home : Option RPath) (fs : List RPath) (start : RPath)
    (hnd : fs.Nodup) :
    (∀ d ∈ (pruneUp home fs start).2,
        d ≠ [] ∧ some d ≠ home ∧ pathHasWtContainer d = true) ∧
    (∀ p : RPath, p ∈ (pruneUp home fs start).1 ↔
        (p ∈ fs ∧ p ∉ (pruneUp home fs start).2)) ∧
    (∀ d ∈ (pruneUp home fs start).2, childCount (pruneUp home fs start).1 d = 0) ∧
    (pruneUp home fs start).2 <+: ancestorsR start := by
  revert hnd
  refine pruneUp.induct home
    (fun fs start => fs.Nodup →
      (∀ d ∈ (pruneUp home fs start).2,
          d ≠ [] ∧ some d ≠ home ∧ pathHasWtContainer d = true) ∧
      (∀ p : RPath, p ∈ (pruneUp home fs start).1 ↔
          (p ∈ fs ∧ p ∉ (pruneUp home fs start).2)) ∧
      (∀ d ∈ (pruneUp home fs start).2, childCount (pruneUp home fs start).1 d = 0) ∧
      (pruneUp home fs start).2 <+: ancestorsR start)
    ?_ ?_ ?_ ?_ ?_ ?_ fs start
  · intro fs hnd
    have hres : pruneUp home fs [] = (fs, []) := by rw [pruneUp]
    rw [hres]
    refine ⟨by simp, ?_, by simp, by simp [ancestorsR]⟩
    intro p
    simp
  · intro fs comp parent hhome hnd
    have hres : pruneUp home fs (comp :: parent) = (fs, []) := by
      rw [pruneUp]
      simp [hhome]
    rw [hres]
    refine ⟨by simp, ?_, by simp, by simp⟩
    intro p
    simp
  · intro fs comp parent hhome hwt hnd
    have hres : pruneUp home fs (comp :: parent) = (fs, []) := by
      rw [pruneUp]
      simp [hhome, hwt]
    rw [hres]
    refine ⟨by simp, ?_, by simp, by simp⟩
    intro p
    simp
  · intro fs comp parent hhome hwt hmem hchild ih hnd
    obtain ⟨ih1, ih2, ih3, ih4⟩ := ih (hnd.erase _)
    have hres : pruneUp home fs (comp :: parent) =
        ((pruneUp home (fs.erase (comp :: parent)) parent).1,
         (comp :: parent) :: (pruneUp home (fs.erase (comp :: parent)) parent).2) := by
      rw [pruneUp]
      simp [hhome, hwt, hmem, hchild]
    rw [hres]
    have hwt2 : pathHasWtContainer (comp :: parent) = true := by
      simpa using hwt
    refine ⟨?_, ?_, ?_, ?_⟩
    · intro d hd
      rcases List.mem_cons.mp hd with rfl | hd
      · exact ⟨List.cons_ne_nil _ _, hhome, hwt2⟩
      · exact ih1 d hd
    · intro p
      rw [ih2 p, hnd.mem_erase_iff]
      simp only [List.mem_cons]
      tauto
    · intro d hd
      rcases List.mem_cons.mp hd with rfl | hd
      · apply List.countP_eq_zero.mpr
        intro p hp
        have hpfs : p ∈ fs := ((hnd.mem_erase_iff).mp ((ih2 p).mp hp).1).2
        exact List.countP_eq_zero.mp hchild p hpfs
      · exact ih3 d hd
    · exact List.cons_prefix_cons.mpr ⟨rfl, ih4⟩
  · intro fs comp parent hhome hwt hmem hchild hnd
    have hres : pruneUp home fs (comp :: parent) = (fs, []) := by
      rw [pruneUp]
      simp [hhome, hwt, hmem, hchild]
    rw [hres]
    refine ⟨by simp, ?_, by simp, by simp⟩
    intro p
    simp
  · intro fs comp parent hhome hwt hmem hnd
    have hres : pruneUp home fs (comp :: parent) = (fs, []) := by
      rw [pruneUp]
      simp [hhome, hwt, hmem]
    rw [hres]
    refine ⟨by simp, ?_, by simp, by simp⟩
    intro p
    simp

/-- Witness for claim C2 on the concrete filesystem fixture: the walk
removes the empty chain up to and including the container directory and
stops below the home directory. -/
theorem c2_prune_safety_witness :
    fixtureFs.Nodup ∧
    (pruneUp (some fixtureHome) fixtureFs fixtureStart).2 =
      [["CO-1", "alice", "acme-worktrees", "u", "home"],
       ["alice", "acme-worktrees", "u", "home"],
       ["acme-worktrees", "u", "home"]] ∧
    (∀ d ∈ (pruneUp (some fixtureHome) fixtureFs fixtureStart).2,
        d ≠ [] ∧ some d ≠ some fixtureHome ∧ pathHasWtContainer d = true) :=
  ⟨by decide, by decide,
   (c2_prune_safety (some fixtureHome) fixtureFs fixtureStart (by decide)).1⟩

/-! ## Divergence counting: claim C6 -/

theorem digitChar_toNat (d : Nat) (h : d < 10) : (digitChar d).toNat = 48 + d := by
  interval_cases d <;> decide

theorem digitVal_digitChar (d : Nat) (h : d < 10) : digitVal (digitChar d) = d := by
  interval_cases d <;> decide

theorem natCharsLE_digits (n : Nat) :
    ∀ c ∈ natCharsLE n, 48 ≤ c.toNat ∧ c.toNat ≤ 57 := by
  induction n using natCharsLE.induct with
  | case1 n h =>
    intro c hc
    rw [natCharsLE, dif_pos h] at hc
    rcases List.mem_singleton.mp hc with rfl
    rw [digitChar_toNat n h]
    omega
  | case2 n h ih =>
    intro c hc
    rw [natCharsLE, dif_neg h] at hc
    rcases List.mem_cons.mp hc with rfl | hc
    · rw [digitChar_toNat (n % 10) (Nat.mod_lt n (by omega))]
      omega
    · exact ih c hc

theorem natCharsLE_ne_nil (n : Nat) : natCharsLE n ≠ [] := by
  by_cases h : n < 10
  · rw [natCharsLE, dif_pos h]
    simp
  · rw [natCharsLE, dif_neg h]
    simp

theorem parseNatDigits_natChars (n : Nat) : parseNatDigits (natChars n) = n := by
  unfold natChars
  induction n using natCharsLE.induct with
  | case1 n h =>
    rw [natCharsLE, dif_pos h]
    show List.foldl _ 0 [digitChar n] = n
    simp [parseNatDigits, digitVal_digitChar n h]
  | case2 n h ih =>
    rw [natCharsLE, dif_neg h]
    show parseNatDigits ((digitChar (n % 10) :: natCharsLE (n / 10)).reverse) = n
    rw [List.reverse_cons]
    unfold parseNatDigits at ih ⊢
    rw [List.foldl_append]
    show ((natCharsLE (n / 10)).reverse.foldl _ 0) * 10 + digitVal (digitChar (n % 10)) = n
    rw [ih, digitVal_digitChar (n % 10) (Nat.mod_lt n (by omega))]
    omega

theorem digit_not_space {c : Char} (h : 48 ≤ c.toNat ∧ c.toNat ≤ 57) :
    jsIsSpace c = false := by
  simp [jsIsSpace]
  omega

theorem splitChar_ne_nil (sep : Char) (l : List Char) : splitChar sep l ≠ [] := by
  cases l with
  | nil => simp [splitChar]
  | cons c rest =>
    rw [splitChar]
    rcases h : splitChar sep rest with _ | ⟨grp, rs⟩ <;>
      by_cases hc : c = sep <;> simp [hc]

theorem splitChar_no_sep (sep : Char) (l : List Char) (h : sep ∉ l) :
    splitChar sep l = [l] := by
  induction l with
  | nil => rfl
  | cons c rest ih =>
    have hcs : ¬ c = sep := fun he => h (he ▸ List.mem_cons_self c rest)
    rw [splitChar, ih (fun hm => h (List.mem_cons_of_mem c hm))]
    simp [hcs]

theorem splitChar_append_sep (sep : Char) (xs ys : List Char) (h : sep ∉ xs) :
    splitChar sep (xs ++ sep :: ys) = xs :: splitChar sep ys := by
  induction xs with
  | nil =>
    rw [List.nil_append, splitChar]
    rcases hys : splitChar sep ys with _ | ⟨grp, rs⟩
    · exact absurd hys (splitChar_ne_nil sep ys)
    · simp
  | cons x xs ih =>
    have hxs : ¬ x = sep := fun he => h (he ▸ List.mem_cons_self x xs)
    rw [List.cons_append, splitChar, ih (fun hm => h (List.mem_cons_of_mem x hm))]
    simp [hxs]

theorem dropWhile_cons_false (p : Char → Bool) (c : Char) (l : List Char)
    (h : p c = false) : (c :: l).dropWhile p = c :: l := by
  simp [List.dropWhile_cons, h]

theorem jsParseIntOr0_natChars (n : Nat) : jsParseIntOr0 (natChars n) = n := by
  have hdigits : ∀ c ∈ natChars n, 48 ≤ c.toNat ∧ c.toNat ≤ 57 := by
    intro c hc
    exact natCharsLE_digits n c (List.mem_reverse.mp hc)
  rcases hn : natChars n with _ | ⟨c, rest⟩
  · exfalso
    apply natCharsLE_ne_nil n
    have := congrArg List.reverse hn
    simpa [natChars] using this
  · have hc := hdigits c (hn ▸ List.mem_cons_self c rest)
    have hdrop : (c :: rest).dropWhile jsIsSpace = c :: rest :=
      dropWhile_cons_false _ _ _ (digit_not_space hc)
    have hcm : ¬ c = '-' := by
      intro he
      rw [he] at hc
      simp at hc
    have hcp : ¬ c = '+' := by
      intro he
      rw [he] at hc
      simp at hc
    have htake : (c :: rest).takeWhile isDigitChar = c :: rest := by
      apply List.takeWhile_eq_self_iff.mpr
      intro a ha
      have := hdigits a (hn ▸ ha)
      simp [isDigitChar]
      omega
    rw [jsParseIntOr0, hdrop]
    simp only [hcm, if_false, hcp, htake, List.isEmpty_cons, Bool.false_eq_true]
    rw [← hn, parseNatDigits_natChars n]

theorem trimChars_digits_tab (a b : List Char)
    (ha : ∀ c ∈ a, 48 ≤ c.toNat ∧ c.toNat ≤ 57)
    (hb : ∀ c ∈ b, 48 ≤ c.toNat ∧ c.toNat ≤ 57)
    (hane : a ≠ []) (hbne : b ≠ []) :
    trimChars (a ++ '\t' :: (b ++ ['\n'])) = a ++ '\t' :: b := by
  rcases a with _ | ⟨ca, a2⟩
  · exact absurd rfl hane
  rcases hbr : b.reverse with _ | ⟨cb, br⟩
  · exact absurd (by simpa using congrArg List.reverse hbr) hbne
  have hca : jsIsSpace ca = false := digit_not_space (ha ca (by simp))
  have hcb : jsIsSpace cb = false := by
    refine digit_not_space (hb cb ?_)
    have : cb ∈ b.reverse := by rw [hbr]; simp
    exact List.mem_reverse.mp this
  unfold trimChars
  rw [List.cons_append, dropWhile_cons_false _ _ _ hca]
  have hrev : (ca :: (a2 ++ '\t' :: (b ++ ['\n']))).reverse
      = '\n' :: (cb :: (br ++ '\t' :: (a2.reverse ++ [ca]))) := by
    simp [hbr]
  rw [hrev]
  have hdropnl : ('\n' :: (cb :: (br ++ '\t' :: (a2.reverse ++ [ca])))).dropWhile jsIsSpace
      = cb :: (br ++ '\t' :: (a2.reverse ++ [ca])) := by
    rw [List.dropWhile_cons]
    simp only [show jsIsSpace '\n' = true from rfl, if_true]
    exact dropWhile_cons_false _ _ _ hcb
  rw [hdropnl]
  have : (cb :: (br ++ '\t' :: (a2.reverse ++ [ca]))).reverse
      = ca :: (a2 ++ '\t' :: (br.reverse ++ [cb])) := by
    simp
  rw [this]
  have hback : br.reverse ++ [cb] = b := by
    have := congrArg List.reverse hbr
    simpa using this.symm
  rw [hback]
  simp

theorem natChars_digits (n : Nat) : ∀ c ∈ natChars n, 48 ≤ c.toNat ∧ c.toNat ≤ 57 :=
  fun c hc => natCharsLE_digits n c (List.mem_reverse.mp hc)

theorem natChars_ne_nil (n : Nat) : natChars n ≠ [] := by
  intro h
  apply natCharsLE_ne_nil n
  simpa [natChars] using congrArg List.reverse h

theorem tab_not_mem_natChars (n : Nat) : '\t' ∉ natChars n := by
  intro hmem
  have := natChars_digits n '\t' hmem
  simp at this

/-- Claim C6: for every worktree, the divergence computation returns
`behind` equal to the number of commits reachable only from the configured
upstream and `ahead` equal to the number reachable only from `HEAD`
(symmetric set difference of the two ranges, as printed by
`rev-list --left-right --count` and re-parsed by the engine); when no
upstream is configured both counts are 0 (and the computation still
produces a result rather than an error); and `clean` is true exactly when
the `git status` file list is empty. -/
theorem c6_divergence (env : GitStatusEnv) :
    (∀ up, env.upstreamCommits = some up →
        (getWorktreeStatus env).behind =
          ((up.filter (fun c => !env.headCommits.contains c)).length : Int) ∧
        (getWorktreeStatus env).ahead =
          ((env.headCommits.filter (fun c => !up.contains c)).length : Int)) ∧
    (env.upstreamCommits = none →
        (getWorktreeStatus env).behind = 0 ∧ (getWorktreeStatus env).ahead = 0) ∧
    ((getWorktreeStatus env).clean = true ↔ env.statusFiles = []) := by
  refine ⟨?_, ?_, ?_⟩
  · intro up hup
    have htrim : trimChars (revListLeftRightCount up env.headCommits) =
        natChars ((up.filter (fun c => !env.headCommits.contains c)).length) ++
          '\t' :: natChars ((env.headCommits.filter (fun c => !up.contains c)).length) := by
      unfold revListLeftRightCount
      rw [List.append_assoc, List.cons_append]
      exact trimChars_digits_tab _ _ (natChars_digits _) (natChars_digits _)
        (natChars_ne_nil _) (natChars_ne_nil _)
    have hsplit : splitChar '\t' (trimChars (revListLeftRightCount up env.headCommits)) =
        [natChars ((up.filter (fun c => !env.headCommits.contains c)).length),
         natChars ((env.headCommits.filter (fun c => !up.contains c)).length)] := by
      rw [htrim, splitChar_append_sep _ _ _ (tab_not_mem_natChars _),
        splitChar_no_sep _ _ (tab_not_mem_natChars _)]
    simp only [getWorktreeStatus, hup, hsplit]
    exact ⟨jsParseIntOr0_natChars _, jsParseIntOr0_natChars _⟩
  · intro hup
    simp [getWorktreeStatus, hup]
  · simp [getWorktreeStatus, List.length_eq_zero]

/-- Witness for claim C6: upstream reaches commits `1, 2, 3`, HEAD reaches
`3, 4`; the computed divergence is `behind = 2`, `ahead = 1`. -/
theorem c6_divergence_witness :
    (getWorktreeStatus { statusFiles := [], upstreamCommits := some [1, 2, 3],
                         headCommits := [3, 4] }).behind =
      ((([1, 2, 3] : List Nat).filter (fun c => !([3, 4] : List Nat).contains c)).length : Int) ∧
    (getWorktreeStatus { statusFiles := [], upstreamCommits := some [1, 2, 3],
                         headCommits := [3, 4] }).ahead =
      ((([3, 4] : List Nat).filter (fun c => !([1, 2, 3] : List Nat).contains c)).length : Int) ∧
    ((([1, 2, 3] : List Nat).filter (fun c => !([3, 4] : List Nat).contains c)).length = 2 ∧
     (([3, 4] : List Nat).filter (fun c => !([1, 2, 3] : List Nat).contains c)).length = 1) :=
  ⟨((c6_divergence _).1 [1, 2, 3] rfl).1, ((c6_divergence _).1 [1, 2, 3] rfl).2,
   by decide, by decide⟩
